import Mathlib

/-!
Shallow embedding of the cron job scheduler of basvanbeek/run-handlers.

Times are modelled as integer nanoseconds on the Unix scale, the
linearisation of Go time.Time: t.After(u) is u < t, the zero time.Time
(January 1, year 1 UTC) is the constant timeZero, and maxTime is the
largest representable time.Time as defined in reference.go.  Durations are
integer nanoseconds.  The atomic pointer nextRun is an Option Int, none
modelling a nil pointer; run, which dereferences it unconditionally,
returns none exactly when that dereference would fault.  A context is
modelled by the one bit run inspects (ctxCanceled), and a
context.CancelFunc by the bit hasCancel (false means a nil function, and
calling a nil function faults).  Goroutines spawned by run are modelled by
the RunEffect tag of the result together with jobComplete, the state
change the BetweenRuns completion callback performs after the job body
returns.  The older task-module variant of the scheduler, whose run method
differs in the stop-after guard, is embedded separately as TaskReference.
-/

namespace RunHandlers

/-- Nanoseconds in one second. -/
def nsPerSec : Int := 1000000000

/-- Go time.Second in nanoseconds. -/
def second : Int := nsPerSec

/-- Go time.Minute in nanoseconds. -/
def minute : Int := 60 * nsPerSec

/-- Go time.Hour in nanoseconds. -/
def hour : Int := 3600 * nsPerSec

/-- The zero Go time.Time (January 1, year 1 UTC) in Unix nanoseconds. -/
def timeZero : Int := -62135596800 * nsPerSec

/-- Constant maxTime = time.Unix(1<<63-62135596801, 999999999) from
reference.go: the maximum time representable by a Go time.Time. -/
def maxTime : Int := (2 ^ 63 - 62135596801) * nsPerSec + 999999999

/-- Type IntervalMode with the two constants of reference.go. -/
inductive IntervalMode where
  | OnTick
  | BetweenRuns
deriving DecidableEq

/-- Which goroutine, if any, a call to run spawns: nothing, asynchronous
self-cancellation from the maxRun-exhausted branch, asynchronous
self-cancellation from the stopAfter branch, or the job-body goroutine. -/
inductive RunEffect where
  | noEffect
  | cancelMaxRun
  | cancelStopAfter
  | spawnJob
deriving DecidableEq

/-- Structure Reference of reference.go.  The field id stands for the
pointer identity used by the scan in cancelJob; nextRun is the content of
the atomic pointer (none means nil); ctxCanceled is whether the context
error is non-nil; hasCancel is whether the cancel function is non-nil. -/
structure Reference where
  id : Nat
  name : String
  lastRun : Int
  nextRun : Option Int
  stopAfter : Int
  interval : Int
  mode : IntervalMode
  runCount : Int
  maxRun : Int
  ctxCanceled : Bool
  hasCancel : Bool
deriving DecidableEq

/-- The outcome of one call to Reference.run: the boolean the function
returns, the updated reference state, and the goroutine spawned. -/
structure RunResult where
  triggered : Bool
  ref : Reference
  effect : RunEffect
deriving DecidableEq

/-- The body of Reference.run from the nextRun.Load().After(now) test
onward, given the loaded (non-nil) nextRun value nr. -/
def Reference.runEligible (r : Reference) (now nr : Int) : RunResult :=
  if now < nr then
    ⟨false, r, RunEffect.noEffect⟩
  else if r.stopAfter ≠ timeZero ∧ r.stopAfter < now then
    ⟨false, r, RunEffect.cancelStopAfter⟩
  else if r.ctxCanceled then
    ⟨false, r, RunEffect.noEffect⟩
  else
    let r1 : Reference :=
      { r with runCount := r.runCount + 1, lastRun := now }
    let r2 : Reference :=
      if 0 < r.interval then
        if r.mode = IntervalMode.OnTick then
          { r1 with nextRun := some (now + r.interval) }
        else
          { r1 with nextRun := some maxTime }
      else r1
    ⟨true, r2, RunEffect.spawnJob⟩

/-- Method Reference.run of reference.go (cron module).  Returns none
exactly when the unconditional nextRun.Load() dereference would be a nil
dereference. -/
def Reference.run (r : Reference) (now : Int) : Option RunResult :=
  if 0 < r.maxRun ∧ r.maxRun ≤ r.runCount then
    some ⟨false, r, RunEffect.cancelMaxRun⟩
  else
    match r.nextRun with
    | none => none
    | some nr => some (r.runEligible now nr)

/-- The tail of the job goroutine of reference.go: after the job body
returns at time completion, in BetweenRuns mode with positive interval the
goroutine stores completion plus interval into nextRun. -/
def Reference.jobComplete (r : Reference) (completion : Int) : Reference :=
  if 0 < r.interval ∧ r.mode = IntervalMode.BetweenRuns then
    { r with nextRun := some (completion + r.interval) }
  else r

/-- Structure Service of service.go: the configured tick period, the
shutdown flag, whether the root context is non-nil (ServeContext has
started), and the registry slice. -/
structure Service where
  SchedulerInterval : Int
  done : Bool
  serving : Bool
  jobs : List Reference
deriving DecidableEq

/-- Method Service.Validate of service.go. -/
def Service.Validate (s : Service) : Except String Unit :=
  if s.SchedulerInterval < second then
    Except.error "scheduler interval needs to be at least one second"
  else Except.ok ()

/-- The schedule-option type of options.go: an option is a fallible
transformation of the reference under construction. -/
def Opt : Type := Reference → Except String Reference

/-- Error value ErrIntervalTooShort of options.go. -/
def ErrIntervalTooShort : String := "interval needs to be at least 1 minute"

/-- Option WithMaxRun of options.go: stores the cap unconditionally. -/
def WithMaxRun (maxRun : Int) : Opt := fun r =>
  Except.ok { r with maxRun := maxRun }

/-- Option WithInterval of options.go: rejects an interval below the
hard-coded constant time.Minute, otherwise stores it. -/
def WithInterval (interval : Int) : Opt := fun r =>
  if interval < minute then Except.error ErrIntervalTooShort
  else Except.ok { r with interval := interval }

/-- Option WithStopAfter of options.go; now stands for the time.Now()
value read inside the option. -/
def WithStopAfter (stopAfter : Int) (now : Int) : Opt := fun r =>
  if stopAfter < now + hour then
    Except.error "stopAfter needs to be at least one hour into future"
  else Except.ok { r with stopAfter := stopAfter }

/-- Characters of the cut set of the trim call in the WithName option:
space, tab, carriage return and newline. -/
def isTrimCutChar (c : Char) : Bool :=
  c == ' ' || c == '\t' || c == '\r' || c == '\n'

/-- Option WithName of options.go: rejects a name that is empty after
trimming the cut set from both ends; the trimmed string is empty exactly
when every character of the name lies in the cut set. -/
def WithName (name : String) : Opt := fun r =>
  if name.toList.all isTrimCutChar then Except.error "name cannot be empty"
  else Except.ok { r with name := name }

/-- The reference literal built at the top of Service.AddJob followed by
the store of the first-run time: defaults are the service interval, OnTick
mode, and zero values elsewhere; id is the fresh pointer identity. -/
def newReference (s : Service) (id : Nat) (at_ : Int) : Reference :=
  { id := id
    name := ""
    lastRun := timeZero
    nextRun := some at_
    stopAfter := timeZero
    interval := s.SchedulerInterval
    mode := IntervalMode.OnTick
    runCount := 0
    maxRun := 0
    ctxCanceled := false
    hasCancel := false }

/-- The option loop of Service.AddJob: apply each option in order, the
first error aborting. -/
def applyOpts : Reference → List Opt → Except String Reference
  | r, [] => Except.ok r
  | r, o :: rest =>
    match o r with
    | Except.error e => Except.error e
    | Except.ok r' => applyOpts r' rest

/-- Method Service.AddJob of service.go.  Returns the Go result pair
together with the service state after the call: on any error the registry
is the one passed in; on success the reference (given a live cancel
function only when the service is already serving) is appended. -/
def Service.AddJob (s : Service) (id : Nat) (at_ : Int) (opts : List Opt) :
    Except String Reference × Service :=
  match applyOpts (newReference s id at_) opts with
  | Except.error e => (Except.error e, s)
  | Except.ok r0 =>
    if r0.interval < s.SchedulerInterval then
      (Except.error ErrIntervalTooShort, s)
    else
      let r1 : Reference := if r0.name = "" then { r0 with name := "anonymous" } else r0
      if s.done then
        (Except.error "service has already shut down", s)
      else
        let r2 : Reference := if s.serving then { r1 with hasCancel := true } else r1
        (Except.ok r2, { s with jobs := s.jobs ++ [r2] })

/-- Method Service.cancelJob of service.go, scanning by pointer identity.
Returns none exactly when the removal path invokes a nil
context.CancelFunc (a runtime fault); otherwise the service state after
the call.  When done is set, or no registered job has the identity, the
call is a no-op. -/
def Service.cancelJob (s : Service) (rid : Nat) : Option Service :=
  if s.done then some s
  else
    match s.jobs.findIdx? (fun x => x.id == rid) with
    | none => some s
    | some i =>
      match s.jobs.get? i, s.jobs.getLast? with
      | some found, some last =>
        if found.hasCancel then
          some { s with jobs := (s.jobs.set i last).dropLast }
        else none
      | _, _ => some s

/-- Method Reference.Cancel of reference.go: delegates to the cancellation
path of the owning service. -/
def Reference.Cancel (r : Reference) (s : Service) : Option Service :=
  s.cancelJob r.id

/-- The entry of Service.ServeContext: bind the root context and derive a
child context (hence a non-nil cancel function) for every registered
reference. -/
def Service.serveStart (s : Service) : Service :=
  { s with serving := true
           jobs := s.jobs.map (fun r => { r with hasCancel := true }) }

/-- Iteration of Reference.run over a list of tick times, threading the
reference state and counting the ticks on which the job triggered; none on
a nil-pointer fault. -/
def runTrace : Reference → List Int → Option (Reference × Nat)
  | r, [] => some (r, 0)
  | r, now :: rest =>
    match r.run now with
    | none => none
    | some res =>
      match runTrace res.ref rest with
      | none => none
      | some (rf, k) => some (rf, (if res.triggered then 1 else 0) + k)

/-- Structure Reference of the older task-module variant
(src/unnamed/part_003): nextRun is a plain field, there is no interval
mode, and the stop-after check lacks the IsZero guard. -/
structure TaskReference where
  name : String
  lastRun : Int
  nextRun : Int
  stopAfter : Int
  interval : Int
  runCount : Int
  maxRun : Int
  ctxCanceled : Bool
deriving DecidableEq

/-- The outcome of one call to TaskReference.run. -/
structure TaskRunResult where
  triggered : Bool
  ref : TaskReference
  effect : RunEffect
deriving DecidableEq

/-- Method Reference.run of the task-module variant: note the unguarded
now.After(stopAfter) test and the synchronous nextRun update. -/
def TaskReference.run (r : TaskReference) (now : Int) : TaskRunResult :=
  if 0 < r.maxRun ∧ r.maxRun ≤ r.runCount then
    ⟨false, r, RunEffect.cancelMaxRun⟩
  else if now < r.nextRun then
    ⟨false, r, RunEffect.noEffect⟩
  else if r.stopAfter < now then
    ⟨false, r, RunEffect.cancelStopAfter⟩
  else if r.ctxCanceled then
    ⟨false, r, RunEffect.noEffect⟩
  else
    let r1 : TaskReference :=
      { r with runCount := r.runCount + 1, lastRun := now }
    let r2 : TaskReference :=
      if 0 < r.interval then { r1 with nextRun := now + r.interval } else r1
    ⟨true, r2, RunEffect.spawnJob⟩

/-- A schedule option preserves a non-nil nextRun slot: applied
successfully to a reference whose slot is set, it leaves the slot set. -/
def OptPreservesNextRun (o : Opt) : Prop :=
  ∀ (r r' : Reference), o r = Except.ok r' →
    r.nextRun.isSome = true → r'.nextRun.isSome = true

/-! ## Concrete fixtures used by witnesses and counterexamples -/

/-- Fixture for claim C1: a BetweenRuns reference due at time zero. -/
def c1Ref : Reference :=
  { id := 1, name := "c1", lastRun := timeZero, nextRun := some 0,
    stopAfter := timeZero, interval := minute, mode := IntervalMode.BetweenRuns,
    runCount := 0, maxRun := 0, ctxCanceled := false, hasCancel := true }

/-- Fixture for claim C1: the result of running c1Ref at time zero. -/
def c1Res : RunResult :=
  ⟨true, { c1Ref with runCount := 1, lastRun := 0, nextRun := some maxTime },
    RunEffect.spawnJob⟩

/-- Fixture for claim C2: a reference capped at two runs. -/
def c2Start : Reference :=
  { id := 2, name := "c2", lastRun := timeZero, nextRun := some 0,
    stopAfter := timeZero, interval := minute, mode := IntervalMode.OnTick,
    runCount := 0, maxRun := 2, ctxCanceled := false, hasCancel := true }

/-- Fixture for claim C2: the same reference with the cap exhausted. -/
def c2Done : Reference := { c2Start with runCount := 2 }

/-- Fixture for claim C2: the state of c2Start after the three-tick trace. -/
def c2Final : Reference :=
  { c2Start with runCount := 2, lastRun := minute, nextRun := some (2 * minute) }

/-- Fixture for claim C3: an OnTick reference due at time zero. -/
def c3Ref : Reference :=
  { id := 3, name := "c3", lastRun := timeZero, nextRun := some 0,
    stopAfter := timeZero, interval := minute, mode := IntervalMode.OnTick,
    runCount := 0, maxRun := 0, ctxCanceled := false, hasCancel := true }

/-- Fixture for claim C3: the result of running c3Ref at time zero. -/
def c3Res : RunResult :=
  ⟨true, { c3Ref with runCount := 1, lastRun := 0, nextRun := some minute },
    RunEffect.spawnJob⟩

/-- Fixture for claim C4: a reference with a zero interval. -/
def c4Ref : Reference :=
  { id := 4, name := "once", lastRun := timeZero, nextRun := some 0,
    stopAfter := timeZero, interval := 0, mode := IntervalMode.OnTick,
    runCount := 0, maxRun := 0, ctxCanceled := false, hasCancel := true }

/-- Fixture for claim C4: the result of running c4Ref at time zero. -/
def c4Res : RunResult :=
  ⟨true, { c4Ref with runCount := 1, lastRun := 0 }, RunEffect.spawnJob⟩

/-- Fixture for claim C5: an idle service. -/
def c5Service : Service :=
  { SchedulerInterval := minute, done := false, serving := false, jobs := [] }

/-- Fixture for claim C5: the reference after the first (named) option. -/
def c5Mid : Reference := { newReference c5Service 5 0 with name := "a" }

/-- Fixture for claim C6: a valid service with one-second granularity. -/
def c6Service : Service :=
  { SchedulerInterval := second, done := false, serving := true, jobs := [] }

/-- Fixture for claim C6: a fresh reference of c6Service. -/
def c6Ref : Reference := newReference c6Service 6 0

/-- Fixture for claim C6: a service with two-minute granularity. -/
def c6Service2 : Service :=
  { SchedulerInterval := 2 * minute, done := false, serving := false, jobs := [] }

/-- Fixture for claim C6: the reference after WithInterval minute. -/
def c6Ref2 : Reference := { newReference c6Service2 7 0 with interval := minute }

/-- Fixture for claim C7: first registered reference. -/
def c7a : Reference :=
  { id := 1, name := "a", lastRun := timeZero, nextRun := some 0,
    stopAfter := timeZero, interval := minute, mode := IntervalMode.OnTick,
    runCount := 0, maxRun := 0, ctxCanceled := false, hasCancel := true }

/-- Fixture for claim C7: second registered reference. -/
def c7b : Reference := { c7a with id := 2, name := "b" }

/-- Fixture for claim C7: a serving service holding both references. -/
def c7s : Service :=
  { SchedulerInterval := minute, done := false, serving := true, jobs := [c7a, c7b] }

/-- Fixture for claim C7: the service after cancelling reference 1. -/
def c7s1 : Service := { c7s with jobs := [c7b] }

/-- Fixture for claim C8: a cron-module reference without a deadline. -/
def c8CronRef : Reference :=
  { id := 8, name := "c8", lastRun := timeZero, nextRun := some 0,
    stopAfter := timeZero, interval := minute, mode := IntervalMode.OnTick,
    runCount := 0, maxRun := 0, ctxCanceled := false, hasCancel := true }

/-- Fixture for claim C8: the result of running c8CronRef at time zero. -/
def c8CronRes : RunResult :=
  ⟨true, { c8CronRef with runCount := 1, lastRun := 0, nextRun := some minute },
    RunEffect.spawnJob⟩

/-- Fixture for claim C8: a task-module reference without a deadline, due
at its zero-valued nextRun. -/
def c8TaskRef : TaskReference :=
  { name := "t", lastRun := timeZero, nextRun := timeZero, stopAfter := timeZero,
    interval := minute, runCount := 0, maxRun := 0, ctxCanceled := false }

/-- Fixture for claim C9: a service that has not started serving. -/
def c9Service : Service :=
  { SchedulerInterval := minute, done := false, serving := false, jobs := [] }

/-- Fixture for claim C9: the reference AddJob registers on c9Service. -/
def c9Ref : Reference :=
  { id := 9, name := "anonymous", lastRun := timeZero, nextRun := some 0,
    stopAfter := timeZero, interval := minute, mode := IntervalMode.OnTick,
    runCount := 0, maxRun := 0, ctxCanceled := false, hasCancel := false }

/-- Fixture for claim C9: c9Service after the registration. -/
def c9After : Service := { c9Service with jobs := [c9Ref] }

/-- Fixture for claim C10: a serving service. -/
def c10Service : Service :=
  { SchedulerInterval := minute, done := false, serving := true, jobs := [] }

/-- Fixture for claim C10: the reference AddJob registers on c10Service. -/
def c10Ref : Reference :=
  { id := 10, name := "x", lastRun := timeZero, nextRun := some 0,
    stopAfter := timeZero, interval := minute, mode := IntervalMode.OnTick,
    runCount := 0, maxRun := 3, ctxCanceled := false, hasCancel := true }

/-- Fixture for claim C10: c10Service after the registration. -/
def c10After : Service := { c10Service with jobs := [c10Ref] }

/-! ## Helper lemmas about run -/

/-- A triggered call to run can only come from the final branch: all the
guards failed, and the updated state is the branch-selected record. -/
theorem run_triggered_char (r : Reference) (now : Int) (res : RunResult)
    (h : r.run now = some res) (ht : res.triggered = true) :
    ∃ nr : Int, r.nextRun = some nr ∧ nr ≤ now ∧
      ¬(0 < r.maxRun ∧ r.maxRun ≤ r.runCount) ∧
      ¬(r.stopAfter ≠ timeZero ∧ r.stopAfter < now) ∧
      r.ctxCanceled = false ∧
      res.effect = RunEffect.spawnJob ∧
      res.ref =
        (if 0 < r.interval then
          if r.mode = IntervalMode.OnTick then
            { r with runCount := r.runCount + 1, lastRun := now,
                     nextRun := some (now + r.interval) }
          else
            { r with runCount := r.runCount + 1, lastRun := now,
                     nextRun := some maxTime }
        else { r with runCount := r.runCount + 1, lastRun := now }) := by
  unfold Reference.run at h
  by_cases hmax : 0 < r.maxRun ∧ r.maxRun ≤ r.runCount
  · rw [if_pos hmax] at h; cases h; simp at ht
  · rw [if_neg hmax] at h
    cases hnr : r.nextRun with
    | none => rw [hnr] at h; cases h
    | some nr =>
      rw [hnr] at h
      have he : res = r.runEligible now nr := by
        cases h; rfl
      unfold Reference.runEligible at he
      by_cases hfut : now < nr
      · rw [if_pos hfut] at he; cases he; simp at ht
      · rw [if_neg hfut] at he
        by_cases hstop : r.stopAfter ≠ timeZero ∧ r.stopAfter < now
        · rw [if_pos hstop] at he; cases he; simp at ht
        · rw [if_neg hstop] at he
          by_cases hctx : r.ctxCanceled = true
          · rw [if_pos hctx] at he; cases he; simp at ht
          · rw [if_neg hctx] at he
            cases he
            exact ⟨nr, rfl, by omega, hmax, hstop, by simpa using hctx, rfl,
              by rw [hnr]⟩

/-- A non-triggered call to run leaves the reference unchanged. -/
theorem run_not_triggered_frame (r : Reference) (now : Int) (res : RunResult)
    (h : r.run now = some res) (ht : res.triggered = false) :
    res.ref = r := by
  unfold Reference.run at h
  by_cases hmax : 0 < r.maxRun ∧ r.maxRun ≤ r.runCount
  · rw [if_pos hmax] at h; cases h; rfl
  · rw [if_neg hmax] at h
    cases hnr : r.nextRun with
    | none => rw [hnr] at h; cases h
    | some nr =>
      rw [hnr] at h
      have he : res = r.runEligible now nr := by cases h; rfl
      unfold Reference.runEligible at he
      by_cases hfut : now < nr
      · rw [if_pos hfut] at he; cases he; rfl
      · rw [if_neg hfut] at he
        by_cases hstop : r.stopAfter ≠ timeZero ∧ r.stopAfter < now
        · rw [if_pos hstop] at he; cases he; rfl
        · rw [if_neg hstop] at he
          by_cases hctx : r.ctxCanceled = true
          · rw [if_pos hctx] at he; cases he; rfl
          · rw [if_neg hctx] at he; cases he; simp at ht

/-- Field changes of a single run call, triggered or not. -/
theorem run_state_change (r : Reference) (now : Int) (res : RunResult)
    (h : r.run now = some res) :
    res.ref.maxRun = r.maxRun ∧ res.ref.ctxCanceled = r.ctxCanceled ∧
    res.ref.stopAfter = r.stopAfter ∧ res.ref.interval = r.interval ∧
    res.ref.mode = r.mode ∧ res.ref.id = r.id ∧
    res.ref.runCount = r.runCount + (if res.triggered then 1 else 0) := by
  cases htr : res.triggered with
  | false =>
    rw [run_not_triggered_frame r now res h htr]; simp
  | true =>
    obtain ⟨nr, hnr, hle, hmax, hstop, hctx, heff, href⟩ :=
      run_triggered_char r now res h htr
    rw [href]
    split
    · split <;> simp
    · simp

/-- A run call never pushes runCount past a positive maxRun. -/
theorem run_le_maxRun (r : Reference) (now : Int) (res : RunResult)
    (hpos : 0 < r.maxRun) (hle : r.runCount ≤ r.maxRun)
    (h : r.run now = some res) : res.ref.runCount ≤ r.maxRun := by
  have hs := run_state_change r now res h
  cases htr : res.triggered with
  | false => rw [htr] at hs; simp at hs; omega
  | true =>
    obtain ⟨nr, hnr, _, hmax, _, _, _, _⟩ := run_triggered_char r now res h htr
    rw [htr] at hs; simp at hs
    omega

/-- runTrace adds the trigger count to runCount and keeps maxRun. -/
theorem runTrace_runCount :
    ∀ (ts : List Int) (r rf : Reference) (k : Nat),
      runTrace r ts = some (rf, k) →
      rf.runCount = r.runCount + (k : Int) ∧ rf.maxRun = r.maxRun := by
  intro ts
  induction ts with
  | nil =>
    intro r rf k h
    unfold runTrace at h
    cases h; simp
  | cons now rest ih =>
    intro r rf k h
    cases hr : r.run now with
    | none => simp only [runTrace, hr] at h; cases h
    | some res =>
      cases ht : runTrace res.ref rest with
      | none => simp only [runTrace, hr, ht] at h; cases h
      | some p =>
        obtain ⟨rf', k'⟩ := p
        simp only [runTrace, hr, ht, Option.some_inj, Prod.mk.injEq] at h
        obtain ⟨h3, h4⟩ := h
        subst h3
        subst h4
        obtain ⟨h1, h2⟩ := ih res.ref rf' k' ht
        have hs := run_state_change r now res hr
        refine ⟨?_, by rw [h2, hs.1]⟩
        rw [h1, hs.2.2.2.2.2.2]
        cases res.triggered <;> (simp; try omega)

/-- runTrace keeps runCount at or below a positive maxRun. -/
theorem runTrace_le_maxRun :
    ∀ (ts : List Int) (r rf : Reference) (k : Nat),
      0 < r.maxRun → r.runCount ≤ r.maxRun →
      runTrace r ts = some (rf, k) → rf.runCount ≤ r.maxRun := by
  intro ts
  induction ts with
  | nil =>
    intro r rf k _ hle h
    unfold runTrace at h
    cases h; exact hle
  | cons now rest ih =>
    intro r rf k hpos hle h
    cases hr : r.run now with
    | none => simp only [runTrace, hr] at h; cases h
    | some res =>
      cases ht : runTrace res.ref rest with
      | none => simp only [runTrace, hr, ht] at h; cases h
      | some p =>
        obtain ⟨rf', k'⟩ := p
        simp only [runTrace, hr, ht, Option.some_inj, Prod.mk.injEq] at h
        obtain ⟨h3, h4⟩ := h
        subst h3
        subst h4
        have hs := run_state_change r now res hr
        have hstep := run_le_maxRun r now res hpos hle hr
        have := ih res.ref rf' k' (by rw [hs.1]; exact hpos)
          (by rw [hs.1]; exact hstep) ht
        rw [hs.1] at this
        exact this

/-! ## Helper lemmas about registration -/

/-- Splitting the option loop across a list append. -/
theorem applyOpts_append (r : Reference) (xs ys : List Opt) :
    applyOpts r (xs ++ ys) =
      (match applyOpts r xs with
       | Except.error e => Except.error e
       | Except.ok r' => applyOpts r' ys) := by
  induction xs generalizing r with
  | nil => rfl
  | cons o rest ih =>
    cases ho : o r with
    | error e => simp only [List.cons_append, applyOpts, ho]
    | ok r' => simp only [List.cons_append, applyOpts, ho]; exact ih r'

/-- Preservation of the nil-check invariant by the option loop. -/
theorem applyOpts_preservesNextRun :
    ∀ (opts : List Opt) (r r' : Reference),
      (∀ o ∈ opts, OptPreservesNextRun o) →
      applyOpts r opts = Except.ok r' →
      r.nextRun.isSome = true → r'.nextRun.isSome = true := by
  intro opts
  induction opts with
  | nil =>
    intro r r' _ h hs
    unfold applyOpts at h
    obtain rfl := Except.ok.inj h
    exact hs
  | cons o rest ih =>
    intro r r' hall h hs
    unfold applyOpts at h
    cases ho : o r with
    | error e => rw [ho] at h; cases h
    | ok r1 =>
      rw [ho] at h
      exact ih r1 r' (fun x hx => hall x (List.mem_cons_of_mem o hx))
        h (hall o (List.mem_cons_self o rest) r r1 ho hs)

/-- Characterisation of a successful AddJob call. -/
theorem AddJob_ok_char (s : Service) (id : Nat) (at_ : Int) (opts : List Opt)
    (r : Reference) (s' : Service)
    (h : s.AddJob id at_ opts = (Except.ok r, s')) :
    ∃ r0 : Reference,
      applyOpts (newReference s id at_) opts = Except.ok r0 ∧
      ¬(r0.interval < s.SchedulerInterval) ∧ s.done = false ∧
      r.nextRun = r0.nextRun ∧
      s' = { s with jobs := s.jobs ++ [r] } := by
  cases happ : applyOpts (newReference s id at_) opts with
  | error e => simp only [Service.AddJob, happ] at h; simp at h
  | ok r0 =>
    simp only [Service.AddJob, happ] at h
    by_cases hint : r0.interval < s.SchedulerInterval
    · rw [if_pos hint] at h; simp at h
    · rw [if_neg hint] at h
      by_cases hdone : s.done = true
      · rw [if_pos hdone] at h; simp at h
      · rw [if_neg hdone] at h
        simp only [Prod.mk.injEq] at h
        obtain ⟨h1, h2⟩ := h
        refine ⟨r0, rfl, hint, by simpa using hdone, ?_, ?_⟩
        · rw [← Except.ok.inj h1]
          by_cases hn : r0.name = ""
          · rw [if_pos hn]
            by_cases hs : s.serving = true
            · rw [if_pos hs]
            · rw [if_neg hs]
          · rw [if_neg hn]
            by_cases hs : s.serving = true
            · rw [if_pos hs]
            · rw [if_neg hs]
        · rw [← h2, ← Except.ok.inj h1]

/-- Option WithMaxRun preserves a set nextRun slot. -/
theorem WithMaxRun_preservesNextRun (n : Int) :
    OptPreservesNextRun (WithMaxRun n) := by
  intro r r' h hs
  have he := Except.ok.inj h
  rw [← he]
  exact hs

/-- Option WithInterval preserves a set nextRun slot. -/
theorem WithInterval_preservesNextRun (n : Int) :
    OptPreservesNextRun (WithInterval n) := by
  intro r r' h hs
  unfold WithInterval at h
  by_cases hc : n < minute
  · rw [if_pos hc] at h; cases h
  · rw [if_neg hc] at h
    rw [← Except.ok.inj h]
    exact hs

/-- Option WithStopAfter preserves a set nextRun slot. -/
theorem WithStopAfter_preservesNextRun (d now : Int) :
    OptPreservesNextRun (WithStopAfter d now) := by
  intro r r' h hs
  unfold WithStopAfter at h
  by_cases hc : d < now + hour
  · rw [if_pos hc] at h; cases h
  · rw [if_neg hc] at h
    rw [← Except.ok.inj h]
    exact hs

/-- Option WithName preserves a set nextRun slot. -/
theorem WithName_preservesNextRun (n : String) :
    OptPreservesNextRun (WithName n) := by
  intro r r' h hs
  unfold WithName at h
  by_cases hc : n.toList.all isTrimCutChar = true
  · rw [if_pos hc] at h; cases h
  · rw [if_neg hc] at h
    rw [← Except.ok.inj h]
    exact hs

/-! ## Helper lemmas about cancellation -/

/-- Swap-with-last removal: overwriting slot i with the last element and
truncating is, up to permutation, erasing slot i. -/
theorem set_last_dropLast_perm {α : Type} :
    ∀ (l : List α) (i : Nat) (y : α),
      l.getLast? = some y → i < l.length →
      List.Perm ((l.set i y).dropLast) (l.eraseIdx i) := by
  intro l
  induction l with
  | nil => intro i y _ hi; simp at hi
  | cons x xs ih =>
    intro i y hy hi
    cases xs with
    | nil =>
      simp only [List.getLast?_singleton, Option.some_inj] at hy
      obtain rfl : i = 0 := by simpa using hi
      subst hy
      simp
    | cons z zs =>
      have hy' : (z :: zs).getLast? = some y := by
        simpa [List.getLast?_cons_cons] using hy
      cases i with
      | zero =>
        have h1 : ((x :: z :: zs).set 0 y).dropLast = y :: (z :: zs).dropLast := by
          simp
        have hd : (z :: zs).dropLast ++ [y] = z :: zs :=
          List.dropLast_append_getLast? y (by simpa using hy')
        have h2 : List.Perm (y :: (z :: zs).dropLast)
            ((z :: zs).dropLast ++ [y]) :=
          (List.perm_append_singleton y ((z :: zs).dropLast)).symm
        rw [h1, List.eraseIdx_cons_zero]
        exact h2.trans (List.Perm.of_eq hd)
      | succ j =>
        have hj : j < (z :: zs).length := by simpa using hi
        have hrec := ih j y hy' hj
        have h1 : ((x :: z :: zs).set (j + 1) y).dropLast
            = x :: (((z :: zs).set j y).dropLast) := by
          rw [List.set_cons_succ]
          cases hzs : (z :: zs).set j y with
          | nil => simp at hzs
          | cons a as => rfl
        rw [h1, List.eraseIdx_cons_succ]
        exact List.Perm.cons x hrec

/-- After a swap-remove of the slot holding the only reference with a
given id, no remaining reference has that id. -/
theorem ids_removed (jobs : List Reference) (rid : Nat) (i : Nat)
    (last : Reference)
    (hnd : (jobs.map (fun x => x.id)).Nodup)
    (hi : i < jobs.length) (hid : (jobs.get ⟨i, hi⟩).id = rid)
    (hlast : jobs.getLast? = some last) :
    ∀ x ∈ (jobs.set i last).dropLast, x.id ≠ rid := by
  intro x hx hxid
  have hperm := set_last_dropLast_perm jobs i last hlast hi
  have hx' : x ∈ jobs.eraseIdx i := hperm.mem_iff.mp hx
  have hmem0 : x.id ∈ (jobs.eraseIdx i).map (fun y => y.id) :=
    List.mem_map_of_mem _ hx'
  rw [hxid] at hmem0
  have hmap : (jobs.eraseIdx i).map (fun y => y.id)
      = (jobs.map (fun y => y.id)).eraseIdx i := by
    simp [List.eraseIdx_eq_take_drop_succ, List.map_take, List.map_drop]
  rw [hmap] at hmem0
  have hi' : i < (jobs.map (fun y => y.id)).length := by simpa using hi
  have hLi : (jobs.map (fun y => y.id))[i] = rid := by
    simpa using hid
  have herase := List.Nodup.erase_getElem hnd i hi'
  rw [hLi] at herase
  have hnot := List.Nodup.not_mem_erase (a := rid) hnd
  rw [herase] at hnot
  exact hnot hmem0

/-- cancelJob is a no-op when no registered job bears the identity. -/
theorem cancelJob_noop_of_absent (s : Service) (rid : Nat)
    (h : ∀ x ∈ s.jobs, x.id ≠ rid) : s.cancelJob rid = some s := by
  unfold Service.cancelJob
  by_cases hd : s.done = true
  · rw [if_pos hd]
  · rw [if_neg hd]
    have hnone : s.jobs.findIdx? (fun x => x.id == rid) = none :=
      List.findIdx?_eq_none_iff.mpr (fun x hx => by simpa using h x hx)
    rw [hnone]

/-- Evaluation of cancelJob when the scan finds index i. -/
theorem cancelJob_found_char (s : Service) (rid i : Nat)
    (hd : s.done = false)
    (hfind : s.jobs.findIdx? (fun x => x.id == rid) = some i) :
    ∃ hi : i < s.jobs.length, ∃ last : Reference,
      s.jobs.getLast? = some last ∧
      (s.jobs.get ⟨i, hi⟩).id = rid ∧
      s.cancelJob rid =
        (if (s.jobs.get ⟨i, hi⟩).hasCancel then
          some { s with jobs := (s.jobs.set i last).dropLast }
        else none) := by
  obtain ⟨hi, hp, hmin⟩ := List.findIdx?_eq_some_iff_getElem.mp hfind
  have hid : (s.jobs.get ⟨i, hi⟩).id = rid := by
    have := hp
    simp only [beq_iff_eq] at this
    simpa [List.get_eq_getElem] using this
  cases hlast : s.jobs.getLast? with
  | none =>
    rw [List.getLast?_eq_none_iff] at hlast
    rw [hlast] at hi
    simp at hi
  | some last =>
    refine ⟨hi, last, rfl, hid, ?_⟩
    unfold Service.cancelJob
    rw [if_neg (by simp [hd])]
    simp only [hfind]
    have hget : s.jobs.get? i = some (s.jobs.get ⟨i, hi⟩) := by
      rw [List.get?_eq_getElem?, List.getElem?_eq_getElem hi]
      simp [List.get_eq_getElem]
    rw [hget, hlast]

/-! ## Claim theorems -/

/-- Claim C1: in BetweenRuns mode with positive interval, a triggering run
stores the far-future sentinel maxTime into nextRun before spawning the
job body; the completion callback later stores completion time plus
interval; and any further run call made before completion (at any time
below maxTime) reports not triggered, so at most one execution is in
flight. -/
theorem C1_betweenRuns_single_flight (r : Reference) (now : Int)
    (res : RunResult)
    (hmode : r.mode = IntervalMode.BetweenRuns) (hint : 0 < r.interval)
    (h : r.run now = some res) (ht : res.triggered = true) :
    res.ref.nextRun = some maxTime ∧
    res.effect = RunEffect.spawnJob ∧
    (∀ t : Int, (res.ref.jobComplete t).nextRun = some (t + r.interval)) ∧
    (∀ now' : Int, now' < maxTime →
      ∃ res' : RunResult, res.ref.run now' = some res' ∧
        res'.triggered = false) := by
  obtain ⟨nr, hnr, hle, hmax, hstop, hctx, heff, href⟩ :=
    run_triggered_char r now res h ht
  rw [if_pos hint] at href
  rw [if_neg (by simp [hmode])] at href
  refine ⟨by rw [href], heff, ?_, ?_⟩
  · intro t
    rw [href]
    simp [Reference.jobComplete, hmode, hint]
  · intro now' hfut
    by_cases hm2 : 0 < res.ref.maxRun ∧ res.ref.maxRun ≤ res.ref.runCount
    · exact ⟨⟨false, res.ref, RunEffect.cancelMaxRun⟩,
        by unfold Reference.run; rw [if_pos hm2], rfl⟩
    · refine ⟨res.ref.runEligible now' maxTime, ?_, ?_⟩
      · unfold Reference.run
        rw [if_neg hm2, href]
      · unfold Reference.runEligible
        rw [if_pos hfut]

/-- Witness for claim C1 at a concrete BetweenRuns reference. -/
theorem C1_betweenRuns_single_flight_witness :
    c1Ref.mode = IntervalMode.BetweenRuns ∧ 0 < c1Ref.interval ∧
    c1Res.ref.nextRun = some maxTime :=
  ⟨rfl, by decide,
    (C1_betweenRuns_single_flight c1Ref 0 c1Res rfl (by decide)
      (by decide) rfl).1⟩

/-- Claim C2: a triggering run increments runCount by exactly one; with
0 < maxRun ≤ runCount the call reports not triggered, leaves the state
unchanged and queues self-cancellation; an unexhausted capped job that is
due does trigger; and over any trace the trigger count equals the final
runCount, which never exceeds maxRun. -/
theorem C2_maxRun_exact_cap :
    (∀ (r : Reference) (now : Int) (res : RunResult),
        r.run now = some res → res.triggered = true →
        res.ref.runCount = r.runCount + 1) ∧
    (∀ (r : Reference) (now : Int),
        0 < r.maxRun → r.maxRun ≤ r.runCount →
        r.run now = some ⟨false, r, RunEffect.cancelMaxRun⟩) ∧
    (∀ (r : Reference) (now nr : Int),
        0 < r.maxRun → r.runCount < r.maxRun →
        r.nextRun = some nr → nr ≤ now →
        ¬(r.stopAfter ≠ timeZero ∧ r.stopAfter < now) →
        r.ctxCanceled = false →
        ∃ res : RunResult, r.run now = some res ∧ res.triggered = true) ∧
    (∀ (r : Reference) (ts : List Int) (rf : Reference) (k : Nat),
        0 < r.maxRun → r.runCount = 0 →
        runTrace r ts = some (rf, k) →
        rf.runCount = (k : Int) ∧ (k : Int) ≤ r.maxRun) := by
  refine ⟨?_, ?_, ?_, ?_⟩
  · intro r now res h ht
    have hs := run_state_change r now res h
    rw [ht] at hs; simp at hs; omega
  · intro r now h1 h2
    unfold Reference.run
    rw [if_pos ⟨h1, h2⟩]
  · intro r now nr hpos hlt hnr hle hstop hctx
    refine ⟨r.runEligible now nr, ?_, ?_⟩
    · unfold Reference.run
      rw [if_neg (by omega), hnr]
    · unfold Reference.runEligible
      rw [if_neg (by omega), if_neg hstop, if_neg (by simp [hctx])]
  · intro r ts rf k hpos hzero h
    obtain ⟨h1, h2⟩ := runTrace_runCount ts r rf k h
    have h3 := runTrace_le_maxRun ts r rf k hpos (by omega) h
    omega

/-- Witness for claim C2: an exhausted reference is not retriggered, and a
three-tick trace of a job capped at two runs triggers exactly twice. -/
theorem C2_maxRun_exact_cap_witness :
    c2Done.run 0 = some ⟨false, c2Done, RunEffect.cancelMaxRun⟩ ∧
    c2Final.runCount = ((2 : Nat) : Int) ∧ ((2 : Nat) : Int) ≤ c2Start.maxRun :=
  ⟨C2_maxRun_exact_cap.2.1 c2Done 0 (by decide) (by decide),
    (C2_maxRun_exact_cap.2.2.2 c2Start [0, minute, 2 * minute] c2Final 2
      (by decide) rfl (by decide)).1,
    (C2_maxRun_exact_cap.2.2.2 c2Start [0, minute, 2 * minute] c2Final 2
      (by decide) rfl (by decide)).2⟩

/-- Claim C3: in OnTick mode with positive interval, a triggering run at
time now immediately stores now plus interval into nextRun, and the
completion callback leaves that value untouched whatever the completion
time. -/
theorem C3_onTick_nextRun_immediate (r : Reference) (now : Int)
    (res : RunResult)
    (hmode : r.mode = IntervalMode.OnTick) (hint : 0 < r.interval)
    (h : r.run now = some res) (ht : res.triggered = true) :
    res.ref.nextRun = some (now + r.interval) ∧
    res.effect = RunEffect.spawnJob ∧
    (∀ t : Int, (res.ref.jobComplete t).nextRun = some (now + r.interval)) := by
  obtain ⟨nr, hnr, hle, hmax, hstop, hctx, heff, href⟩ :=
    run_triggered_char r now res h ht
  rw [if_pos hint, if_pos hmode] at href
  refine ⟨by rw [href], heff, ?_⟩
  intro t
  rw [href]
  simp [Reference.jobComplete, hmode]

/-- Witness for claim C3 at a concrete OnTick reference. -/
theorem C3_onTick_nextRun_immediate_witness :
    c3Res.ref.nextRun = some (0 + c3Ref.interval) :=
  (C3_onTick_nextRun_immediate c3Ref 0 c3Res rfl (by decide)
    (by decide) rfl).1

/-- Counterexample to claim C4: a reference with interval zero triggers at
time zero and triggers again at the later time minute, so it does not run
only once. -/
theorem C4_zero_interval_counterexample :
    c4Ref.interval = 0 ∧
    (c4Ref.run 0).map (fun res => res.triggered) = some true ∧
    ((c4Ref.run 0).bind (fun res => res.ref.run minute)).map
        (fun res => res.triggered) = some true :=
  ⟨rfl, rfl, rfl⟩

/-- Claim C4 as amended: a triggering run of a reference with interval
zero (and no run cap, no deadline, live context) leaves nextRun unchanged,
so every later call at or after the trigger time triggers again; a zero
interval does not give run-once behaviour. -/
theorem C4_zero_interval_repeats (r : Reference) (now now' : Int)
    (res : RunResult)
    (hint : r.interval = 0) (hmax : r.maxRun ≤ 0) (hstop : r.stopAfter = timeZero)
    (hctx : r.ctxCanceled = false) (hle : now ≤ now')
    (h : r.run now = some res) (ht : res.triggered = true) :
    res.ref.nextRun = r.nextRun ∧
    ∃ res' : RunResult, res.ref.run now' = some res' ∧
      res'.triggered = true := by
  obtain ⟨nr, hnr, hle0, hmax0, hstop0, hctx0, heff, href⟩ :=
    run_triggered_char r now res h ht
  rw [if_neg (by omega)] at href
  refine ⟨by rw [href], res.ref.runEligible now' nr, ?_, ?_⟩
  · unfold Reference.run
    rw [href]
    rw [if_neg (by simp; omega)]
    simp only [hnr]
  · unfold Reference.runEligible
    rw [href]
    rw [if_neg (by simp; omega), if_neg (by simp [hstop]), if_neg (by simp [hctx])]

/-- Witness for the amended claim C4 at a concrete zero-interval
reference. -/
theorem C4_zero_interval_repeats_witness :
    c4Ref.interval = 0 ∧ c4Res.ref.nextRun = c4Ref.nextRun :=
  ⟨rfl,
    (C4_zero_interval_repeats c4Ref 0 minute c4Res rfl (by decide) rfl rfl
      (by decide) (by decide) rfl).1⟩

/-- Claim C5: when the options before some failing option all succeed and
that option returns an error, AddJob returns exactly that error and the
service (in particular its registry) is returned unchanged, whatever
options follow the failing one. -/
theorem C5_addJob_first_error_aborts (s : Service) (id : Nat) (at_ : Int)
    (pre post : List Opt) (o : Opt) (r' : Reference) (e : String)
    (hpre : applyOpts (newReference s id at_) pre = Except.ok r')
    (ho : o r' = Except.error e) :
    s.AddJob id at_ (pre ++ o :: post) = (Except.error e, s) := by
  simp only [Service.AddJob, applyOpts_append, hpre, applyOpts, ho]

/-- Witness for claim C5: a failing interval option after a succeeding
name option aborts the registration with that error. -/
theorem C5_addJob_first_error_aborts_witness :
    applyOpts (newReference c5Service 5 0) [WithName "a"] = Except.ok c5Mid ∧
    WithInterval 0 c5Mid = Except.error ErrIntervalTooShort ∧
    c5Service.AddJob 5 0 ([WithName "a"] ++ WithInterval 0 :: [WithMaxRun 5]) =
      (Except.error ErrIntervalTooShort, c5Service) :=
  ⟨rfl, rfl,
    C5_addJob_first_error_aborts c5Service 5 0 [WithName "a"] [WithMaxRun 5]
      (WithInterval 0) c5Mid ErrIntervalTooShort rfl rfl⟩

/-- Counterexample to claim C6: on a validated service whose configured
granularity is one second, the interval option rejects a thirty-second
interval even though it is at or above the configured minimum, because the
option compares against a hard-coded one-minute constant. -/
theorem C6_interval_option_counterexample :
    c6Service.Validate = Except.ok () ∧
    c6Service.SchedulerInterval ≤ 30 * second ∧
    WithInterval (30 * second) c6Ref = Except.error ErrIntervalTooShort :=
  ⟨rfl, by decide, rfl⟩

/-- Claim C6 as amended: the interval option rejects exactly the intervals
below the hard-coded one-minute constant, independent of the service;
separately, AddJob rejects any registration whose resolved interval is
below the configured SchedulerInterval of the service. -/
theorem C6_interval_minimums :
    (∀ (interval : Int) (r : Reference),
        (interval < minute →
          WithInterval interval r = Except.error ErrIntervalTooShort) ∧
        (minute ≤ interval →
          WithInterval interval r = Except.ok { r with interval := interval })) ∧
    (∀ (s : Service) (id : Nat) (at_ : Int) (opts : List Opt) (r : Reference),
        applyOpts (newReference s id at_) opts = Except.ok r →
        r.interval < s.SchedulerInterval →
        s.AddJob id at_ opts = (Except.error ErrIntervalTooShort, s)) := by
  constructor
  · intro interval r
    constructor
    · intro hlt
      unfold WithInterval
      rw [if_pos hlt]
    · intro hge
      unfold WithInterval
      rw [if_neg (by omega)]
  · intro s id at_ opts r hopts hlt
    simp only [Service.AddJob, hopts]
    rw [if_pos hlt]

/-- Witness for the amended claim C6: the option rejects a value just
under one minute, and AddJob rejects a one-minute interval on a service
with a two-minute granularity. -/
theorem C6_interval_minimums_witness :
    WithInterval (minute - 1) c6Ref = Except.error ErrIntervalTooShort ∧
    c6Service2.AddJob 7 0 [WithInterval minute] =
      (Except.error ErrIntervalTooShort, c6Service2) :=
  ⟨(C6_interval_minimums.1 (minute - 1) c6Ref).1 (by decide),
    C6_interval_minimums.2 c6Service2 7 0 [WithInterval minute] c6Ref2 rfl
      (by decide)⟩

/-- Claim C7: cancellation is idempotent and frame-preserving.  When no
registered job has the identity the call is a no-op returning the service
unchanged; a repeated cancellation after any successful one is a no-op;
and under a distinct-identity registry a successful call either removed
nothing (identity absent) or removed exactly the one job with that
identity by swap-with-last, leaving the other jobs (as a multiset) and the
rest of the service state unchanged. -/
theorem C7_cancel_idempotent :
    (∀ (s : Service) (rid : Nat),
        (∀ x ∈ s.jobs, x.id ≠ rid) → s.cancelJob rid = some s) ∧
    (∀ (s : Service) (rid : Nat) (s' : Service),
        (s.jobs.map (fun x => x.id)).Nodup →
        s.cancelJob rid = some s' → s'.cancelJob rid = some s') ∧
    (∀ (s : Service) (rid : Nat) (s' : Service),
        s.done = false → (s.jobs.map (fun x => x.id)).Nodup →
        s.cancelJob rid = some s' →
        (s' = s ∧ ∀ x ∈ s.jobs, x.id ≠ rid) ∨
        (∃ (i : Nat) (hi : i < s.jobs.length),
          (s.jobs.get ⟨i, hi⟩).id = rid ∧
          s'.SchedulerInterval = s.SchedulerInterval ∧
          s'.done = s.done ∧ s'.serving = s.serving ∧
          List.Perm s'.jobs (s.jobs.eraseIdx i))) := by
  refine ⟨cancelJob_noop_of_absent, ?_, ?_⟩
  · intro s rid s' hnd h
    by_cases hd : s.done = true
    · have hs : s.cancelJob rid = some s := by
        unfold Service.cancelJob; rw [if_pos hd]
      rw [hs] at h
      obtain rfl : s = s' := Option.some_inj.mp h
      exact hs
    · have hd' : s.done = false := by simpa using hd
      cases hfind : s.jobs.findIdx? (fun x => x.id == rid) with
      | none =>
        have hs : s.cancelJob rid = some s := by
          unfold Service.cancelJob; rw [if_neg hd]; rw [hfind]
        rw [hs] at h
        obtain rfl : s = s' := Option.some_inj.mp h
        exact hs
      | some i =>
        obtain ⟨hi, last, hlast, hid, heval⟩ :=
          cancelJob_found_char s rid i hd' hfind
        rw [heval] at h
        by_cases hc : (s.jobs.get ⟨i, hi⟩).hasCancel = true
        · rw [if_pos hc] at h
          obtain rfl : _ = s' := Option.some_inj.mp h
          exact cancelJob_noop_of_absent _ rid
            (fun x hx => ids_removed s.jobs rid i last hnd hi hid hlast x hx)
        · rw [if_neg hc] at h
          cases h
  · intro s rid s' hd hnd h
    cases hfind : s.jobs.findIdx? (fun x => x.id == rid) with
    | none =>
      have hs : s.cancelJob rid = some s := by
        unfold Service.cancelJob; rw [if_neg (by simp [hd])]; rw [hfind]
      rw [hs] at h
      obtain rfl : s = s' := Option.some_inj.mp h
      left
      refine ⟨rfl, fun x hx => ?_⟩
      have := List.findIdx?_eq_none_iff.mp hfind x hx
      simpa using this
    | some i =>
      obtain ⟨hi, last, hlast, hid, heval⟩ :=
        cancelJob_found_char s rid i hd hfind
      rw [heval] at h
      by_cases hc : (s.jobs.get ⟨i, hi⟩).hasCancel = true
      · rw [if_pos hc] at h
        obtain rfl : _ = s' := Option.some_inj.mp h
        right
        exact ⟨i, hi, hid, rfl, rfl, rfl,
          set_last_dropLast_perm s.jobs i last hlast hi⟩
      · rw [if_neg hc] at h
        cases h

/-- Witness for claim C7 on a concrete two-job service: cancelling an
absent identity is a no-op, a second cancellation of identity one is a
no-op, and the successful cancellation removed exactly that job. -/
theorem C7_cancel_idempotent_witness :
    c7s.cancelJob 99 = some c7s ∧
    c7s1.cancelJob 1 = some c7s1 ∧
    ((c7s1 = c7s ∧ ∀ x ∈ c7s.jobs, x.id ≠ 1) ∨
      (∃ (i : Nat) (hi : i < c7s.jobs.length),
        (c7s.jobs.get ⟨i, hi⟩).id = 1 ∧
        c7s1.SchedulerInterval = c7s.SchedulerInterval ∧
        c7s1.done = c7s.done ∧ c7s1.serving = c7s.serving ∧
        List.Perm c7s1.jobs (c7s.jobs.eraseIdx i))) :=
  ⟨C7_cancel_idempotent.1 c7s 99 (by decide),
    C7_cancel_idempotent.2.1 c7s 1 c7s1 (by decide) (by decide),
    C7_cancel_idempotent.2.2 c7s 1 c7s1 rfl (by decide) (by decide)⟩

/-- Claim C8: in the cron-module run, a reference whose stopAfter is the
zero value is never retired on the stop-after branch, whatever the current
time; the task-module variant, however, lacks the zero guard: its run
retires a deadline-free reference on the stop-after branch at its first
eligible tick, as the concrete evaluation shows. -/
theorem C8_stopAfter_zero_branch :
    (∀ (r : Reference) (now : Int) (res : RunResult),
        r.stopAfter = timeZero → r.run now = some res →
        res.effect ≠ RunEffect.cancelStopAfter) ∧
    c8TaskRef.run 0 = ⟨false, c8TaskRef, RunEffect.cancelStopAfter⟩ := by
  constructor
  · intro r now res hstop h
    unfold Reference.run at h
    by_cases hmax : 0 < r.maxRun ∧ r.maxRun ≤ r.runCount
    · rw [if_pos hmax] at h
      obtain rfl := Option.some_inj.mp h
      simp
    · rw [if_neg hmax] at h
      cases hnr : r.nextRun with
      | none => rw [hnr] at h; cases h
      | some nr =>
        rw [hnr] at h
        obtain rfl := (Option.some_inj.mp h).symm
        unfold Reference.runEligible
        by_cases hfut : now < nr
        · rw [if_pos hfut]; simp
        · rw [if_neg hfut, if_neg (by simp [hstop])]
          by_cases hctx : r.ctxCanceled = true
          · rw [if_pos hctx]; simp
          · rw [if_neg hctx]; simp
  · decide

/-- Witness for claim C8: a concrete deadline-free cron reference is not
retired on the stop-after branch. -/
theorem C8_stopAfter_zero_branch_witness :
    c8CronRef.stopAfter = timeZero ∧
    c8CronRes.effect ≠ RunEffect.cancelStopAfter :=
  ⟨rfl, C8_stopAfter_zero_branch.1 c8CronRef 0 c8CronRes rfl (by decide)⟩

/-- Claim C9, refuted by evaluation: a job registered while the service is
not yet serving carries a nil cancel function, and cancelling it faults
(the removal path invokes the nil function); once serving has started the
same cancellation completes and empties the registry. -/
theorem C9_precancel_nil_fault :
    c9Service.AddJob 9 0 [] = (Except.ok c9Ref, c9After) ∧
    c9Ref.hasCancel = false ∧
    c9Ref.Cancel c9After = none ∧
    c9After.serveStart.cancelJob c9Ref.id =
      some { SchedulerInterval := minute, done := false, serving := true,
             jobs := [] } :=
  ⟨rfl, rfl, by decide, by decide⟩

/-- Claim C10: a successful AddJob yields a reference whose nextRun slot
is set (the first-run time is stored before the options run), and keeps
every registry slot set; run never faults on a reference whose slot is
set; and both run and the completion callback keep the slot set. -/
theorem C10_nextRun_never_nil :
    (∀ (s : Service) (id : Nat) (at_ : Int) (opts : List Opt)
        (r : Reference) (s' : Service),
        (∀ o ∈ opts, OptPreservesNextRun o) →
        s.AddJob id at_ opts = (Except.ok r, s') →
        r.nextRun.isSome = true ∧
        ((∀ x ∈ s.jobs, x.nextRun.isSome = true) →
          ∀ x ∈ s'.jobs, x.nextRun.isSome = true)) ∧
    (∀ (r : Reference) (now : Int),
        r.nextRun.isSome = true → (r.run now).isSome = true) ∧
    (∀ (r : Reference) (now : Int) (res : RunResult),
        r.nextRun.isSome = true → r.run now = some res →
        res.ref.nextRun.isSome = true) ∧
    (∀ (r : Reference) (t : Int),
        r.nextRun.isSome = true → (r.jobComplete t).nextRun.isSome = true) := by
  refine ⟨?_, ?_, ?_, ?_⟩
  · intro s id at_ opts r s' hopts h
    obtain ⟨r0, happ, hint, hdone, hnr, hs'⟩ := AddJob_ok_char s id at_ opts r s' h
    have h0 : (newReference s id at_).nextRun.isSome = true := rfl
    have hr0 := applyOpts_preservesNextRun opts (newReference s id at_) r0
      hopts happ h0
    refine ⟨by rw [hnr]; exact hr0, ?_⟩
    intro hall x hx
    rw [hs'] at hx
    rcases List.mem_append.mp hx with hx1 | hx2
    · exact hall x hx1
    · obtain rfl := List.mem_singleton.mp hx2
      rw [hnr]; exact hr0
  · intro r now hs
    unfold Reference.run
    by_cases hmax : 0 < r.maxRun ∧ r.maxRun ≤ r.runCount
    · rw [if_pos hmax]; rfl
    · rw [if_neg hmax]
      cases hnr : r.nextRun with
      | none => rw [hnr] at hs; simp at hs
      | some nr => rfl
  · intro r now res hs h
    cases ht : res.triggered with
    | false => rw [run_not_triggered_frame r now res h ht]; exact hs
    | true =>
      obtain ⟨nr, hnr, hle, hmax, hstop, hctx, heff, href⟩ :=
        run_triggered_char r now res h ht
      rw [href]
      split
      · split
        · rfl
        · rfl
      · exact hs
  · intro r t hs
    unfold Reference.jobComplete
    split
    · rfl
    · exact hs

/-- Witness for claim C10: the registration on a serving service with the
name and max-run options yields a set slot, and run does not fault on
it. -/
theorem C10_nextRun_never_nil_witness :
    c10Ref.nextRun.isSome = true ∧ (c10Ref.run 0).isSome = true :=
  ⟨(C10_nextRun_never_nil.1 c10Service 10 0 [WithName "x", WithMaxRun 3]
      c10Ref c10After
      (by
        intro o ho
        rcases List.mem_cons.mp ho with rfl | ho2
        · exact WithName_preservesNextRun "x"
        · rcases List.mem_cons.mp ho2 with rfl | ho3
          · exact WithMaxRun_preservesNextRun 3
          · exact absurd ho3 (List.not_mem_nil o))
      rfl).1,
    C10_nextRun_never_nil.2.1 c10Ref 0 (by decide)⟩

end RunHandlers
